import Mathlib

/-!
Verification of the logview core (block parser, navigation/filter state
machine, cross-block search, highlight match scanning) against its
natural-language specification.

Strings are modelled as `List Char`; Python `str.lower` is modelled as
character-wise `Char.toLower`; Python substring containment (`in`) is
`List.isInfixOf`; Python `str.split('\n')` is `splitNl`.
-/

namespace Logview

/-- Character-wise lower-casing, modelling Python `str.lower()` on the
alphabets the program works with. -/
def lower (l : List Char) : List Char := l.map Char.toLower

theorem bool_eq_false {b : Bool} (h : ¬ b = true) : b = false := by
  cases b
  · rfl
  · exact absurd rfl h

/-- Position of the leftmost occurrence of `needle` in `haystack`
(`none` if there is none), modelling both Python `str.find` and the
leftmost-match rule of `re` for an escaped literal pattern.  An empty
needle matches at position 0. -/
def pyFind (needle : List Char) : List Char → Option Nat
  | [] => if needle.isPrefixOf ([] : List Char) then some 0 else none
  | c :: rest =>
    if needle.isPrefixOf (c :: rest) then some 0
    else (pyFind needle rest).map (· + 1)

theorem pyFind_some_isPrefixOf {needle l : List Char} {j : Nat}
    (h : pyFind needle l = some j) : needle.isPrefixOf (l.drop j) = true := by
  induction l generalizing j with
  | nil =>
    simp only [pyFind] at h
    split at h
    · rename_i hp
      cases h
      simpa using hp
    · exact absurd h (by simp)
  | cons c rest ih =>
    simp only [pyFind] at h
    split at h
    · rename_i hp
      cases h
      simpa using hp
    · rcases Option.map_eq_some'.mp h with ⟨j', hj', rfl⟩
      simpa using ih hj'

theorem pyFind_some_min {needle l : List Char} {j : Nat}
    (h : pyFind needle l = some j) :
    ∀ k < j, ¬ needle.isPrefixOf (l.drop k) = true := by
  induction l generalizing j with
  | nil =>
    simp only [pyFind] at h
    split at h
    · cases h; omega
    · exact absurd h (by simp)
  | cons c rest ih =>
    simp only [pyFind] at h
    split at h
    · cases h; omega
    · rename_i hp
      rcases Option.map_eq_some'.mp h with ⟨j', hj', rfl⟩
      intro k hk
      cases k with
      | zero => simpa using hp
      | succ k' =>
        have := ih hj' k' (by omega)
        simpa using this

theorem pyFind_none {needle l : List Char}
    (h : pyFind needle l = none) :
    ∀ k, ¬ needle.isPrefixOf (l.drop k) = true := by
  induction l with
  | nil =>
    intro k
    simp only [pyFind] at h
    split at h
    · exact absurd h (by simp)
    · rename_i hp
      simpa [List.drop_nil] using hp
  | cons c rest ih =>
    intro k
    simp only [pyFind] at h
    split at h
    · exact absurd h (by simp)
    · rename_i hp
      have hrest : pyFind needle rest = none := by
        cases hr : pyFind needle rest with
        | none => rfl
        | some j => rw [hr] at h; simp at h
      cases k with
      | zero => simpa using hp
      | succ k' => simpa using ih hrest k'

theorem pyFind_some_le {needle l : List Char} {j : Nat}
    (h : pyFind needle l = some j) : j ≤ l.length := by
  induction l generalizing j with
  | nil =>
    simp only [pyFind] at h
    split at h
    · cases h; simp
    · exact absurd h (by simp)
  | cons c rest ih =>
    simp only [pyFind] at h
    split at h
    · cases h; simp
    · rcases Option.map_eq_some'.mp h with ⟨j', hj', rfl⟩
      have := ih hj'
      simp
      omega

theorem pyFind_nil_needle (l : List Char) : pyFind [] l = some 0 := by
  cases l <;> simp [pyFind]

/-- Substring containment, modelling Python `in` on strings
(`x in s` holds iff `s.find(x)` succeeds). -/
def hasSub (needle haystack : List Char) : Bool :=
  (pyFind needle haystack).isSome

theorem hasSub_iff_exists_drop {needle l : List Char} :
    hasSub needle l = true ↔ ∃ k, needle.isPrefixOf (l.drop k) = true := by
  unfold hasSub
  constructor
  · intro h
    cases hf : pyFind needle l with
    | none => rw [hf] at h; simp at h
    | some j => exact ⟨j, pyFind_some_isPrefixOf hf⟩
  · rintro ⟨k, hk⟩
    cases hf : pyFind needle l with
    | none => exact absurd hk (pyFind_none hf k)
    | some j => simp

/-- Substring containment coincides with the `List.IsInfix` relation. -/
theorem hasSub_iff_infix {needle l : List Char} :
    hasSub needle l = true ↔ needle <:+: l := by
  rw [hasSub_iff_exists_drop]
  constructor
  · rintro ⟨k, hk⟩
    rcases List.isPrefixOf_iff_prefix.mp hk with ⟨t, ht⟩
    refine ⟨l.take k, t, ?_⟩
    rw [List.append_assoc, ht, List.take_append_drop]
  · rintro ⟨s, t, rfl⟩
    refine ⟨s.length, ?_⟩
    rw [List.append_assoc, List.drop_left]
    exact List.isPrefixOf_iff_prefix.mpr ⟨t, rfl⟩

/-! ### Block Parser (src/logview/core/parser.py) -/

/-- Tail of Python `re.split` with an empty (escaped) literal pattern:
after the leading empty chunk and empty captured separator, each
remaining character becomes a chunk followed by an empty captured
separator, ending with a final empty chunk (Python 3.7+ empty-match
splitting). -/
def emptySepTail : List Char → List (List Char)
  | [] => [[]]
  | c :: rest => [c] :: [] :: emptySepTail rest

/-- Python `re.split("()", content)`: chunks and captured empty
separators produced by splitting on an empty pattern. -/
def emptySepSplit (content : List Char) : List (List Char) :=
  [] :: [] :: emptySepTail content

/-- Python `re.split(f"({re.escape(sep)})", content)` for a literal
separator: split at each leftmost non-overlapping occurrence of `sep`,
keeping the captured separators as their own list entries, so the
result alternates non-separator chunks and separators. -/
def reSplit (sep content : List Char) : List (List Char) :=
  if hsep : sep = [] then emptySepSplit content
  else
    match hf : pyFind sep content with
    | none => [content]
    | some i => content.take i :: sep :: reSplit sep (content.drop (i + sep.length))
termination_by content.length
decreasing_by
  have hpre := pyFind_some_isPrefixOf hf
  have hlen : sep.length ≤ (content.drop i).length :=
    (List.isPrefixOf_iff_prefix.mp hpre).length_le
  have hslen : 1 ≤ sep.length := by
    cases sep with
    | nil => exact absurd rfl hsep
    | cons _ _ => simp
  simp only [List.length_drop] at *
  omega

/-- The merge loop of `LogParser.parse`: for `i in range(0, len(parts), 2)`
append `parts[i] + parts[i+1]` when the separator `parts[i+1]` exists,
else `parts[i]` alone. -/
def pairUp : List (List Char) → List (List Char)
  | [] => []
  | [a] => [a]
  | a :: b :: rest => (a ++ b) :: pairUp rest

/-- `LogParser.parse`: empty content yields no blocks; otherwise split on
the separator, merge each chunk with its following separator, and fall
back to the whole content as a single block if the merge produced
nothing. -/
def parse (sep content : List Char) : List (List Char) :=
  if content = [] then []
  else
    let blocks := pairUp (reSplit sep content)
    if blocks = [] then [content] else blocks

/-- `LogParser.search_blocks`: indices of the blocks containing the
keyword as a case-insensitive substring, in ascending order; empty
keyword or empty block list yields no indices. -/
def search_blocks (keyword : List Char) (blocks : List (List Char)) : List Nat :=
  if keyword = [] ∨ blocks = [] then []
  else (List.range blocks.length).filter
    (fun i => hasSub (lower keyword) (lower (blocks.getD i [])))

/-- Python `str.split('\n')`: always at least one (possibly empty) line. -/
def splitNl : List Char → List (List Char)
  | [] => [[]]
  | c :: rest =>
    if c = '\n' then [] :: splitNl rest
    else
      match splitNl rest with
      | [] => [[c]]
      | l :: ls => (c :: l) :: ls

/-- `LogParser.search_in_block`: the (0-based lineNumber, lineText) pairs
of the lines of the given block containing the keyword
case-insensitively, in line order. -/
def search_in_block (blocks : List (List Char)) (block_index : Nat)
    (keyword : List Char) : List (Nat × List Char) :=
  if keyword = [] ∨ block_index ≥ blocks.length then []
  else
    let lines := splitNl (blocks.getD block_index [])
    lines.enum.filter (fun p => hasSub (lower keyword) (lower p.2))

theorem splitNl_ne_nil (l : List Char) : splitNl l ≠ [] := by
  induction l with
  | nil => simp [splitNl]
  | cons c rest ih =>
    simp only [splitNl]
    split
    · simp
    · cases h : splitNl rest with
      | nil => simp
      | cons a as => simp

theorem emptySepTail_join (content : List Char) :
    (emptySepTail content).flatten = content := by
  induction content with
  | nil => simp [emptySepTail]
  | cons c rest ih => simp [emptySepTail, ih]

theorem drop_of_isPrefixOf_drop {sep content : List Char} {i : Nat}
    (h : sep.isPrefixOf (content.drop i) = true) :
    content.drop (i + sep.length) = (content.drop i).drop sep.length := by
  rw [List.drop_drop, Nat.add_comm]

theorem take_append_of_isPrefixOf_drop {sep content : List Char} {i : Nat}
    (h : sep.isPrefixOf (content.drop i) = true) :
    content.take i ++ sep ++ content.drop (i + sep.length) = content := by
  rcases List.isPrefixOf_iff_prefix.mp h with ⟨t, ht⟩
  have hdd : content.drop (i + sep.length) = t := by
    rw [drop_of_isPrefixOf_drop h, ← ht]
    simp [List.drop_left]
  rw [hdd, List.append_assoc, ht, List.take_append_drop]

theorem reSplit_join (sep content : List Char) :
    (reSplit sep content).flatten = content := by
  induction content using reSplit.induct sep with
  | case1 content hsep =>
    rw [reSplit]
    simp [hsep, emptySepSplit, emptySepTail_join]
  | case2 content hsep hf =>
    rw [reSplit, dif_neg hsep]
    split
    · simp
    · rename_i i heq
      rw [hf] at heq
      exact absurd heq (by simp)
  | case3 content hsep i hf ih =>
    rw [reSplit, dif_neg hsep]
    split
    · rename_i heq
      rw [hf] at heq
      exact absurd heq (by simp)
    · rename_i i' heq
      rw [hf] at heq
      cases heq
      simp only [List.flatten_cons]
      rw [ih, ← List.append_assoc,
        take_append_of_isPrefixOf_drop (pyFind_some_isPrefixOf hf)]

theorem pairUp_join (l : List (List Char)) :
    (pairUp l).flatten = l.flatten := by
  induction l using pairUp.induct with
  | case1 => simp [pairUp]
  | case2 a => simp [pairUp]
  | case3 a b rest ih => simp [pairUp, ih]

theorem hasSub_eq_false_iff {needle l : List Char} :
    hasSub needle l = false ↔ pyFind needle l = none := by
  unfold hasSub
  cases pyFind needle l <;> simp

/-- A chunk cut before the leftmost occurrence of `sep` contains no
occurrence of `sep`. -/
theorem hasSub_take_eq_false {sep content : List Char} {i : Nat}
    (hsep : sep ≠ [])
    (hmin : ∀ k < i, ¬ sep.isPrefixOf (content.drop k) = true) :
    hasSub sep (content.take i) = false := by
  by_contra h
  have h' : hasSub sep (content.take i) = true := by
    cases hx : hasSub sep (content.take i)
    · exact absurd hx h
    · rfl
  rcases hasSub_iff_exists_drop.mp h' with ⟨k, hk⟩
  by_cases hki : k < i
  · have hpre : (content.take i).drop k <+: content.drop k := by
      rw [List.drop_take]
      exact List.take_prefix _ _
    have : sep <+: content.drop k :=
      (List.isPrefixOf_iff_prefix.mp hk).trans hpre
    exact hmin k hki (List.isPrefixOf_iff_prefix.mpr this)
  · have hlen : (content.take i).length ≤ k := by
      have := List.length_take_le i content
      omega
    rw [List.drop_eq_nil_of_le hlen] at hk
    rcases List.isPrefixOf_iff_prefix.mp hk with ⟨t, ht⟩
    have hlt : sep.length + t.length = 0 := by
      simpa using congrArg List.length ht
    have : sep = [] := List.length_eq_zero.mp (by omega)
    exact hsep this

/-- Alternation of non-separator runs (containing no occurrence of the
separator) with copies of the separator itself. -/
def SepAlt (sep : List Char) : List (List Char) → Prop
  | [] => False
  | [r] => hasSub sep r = false
  | r :: s :: rest => hasSub sep r = false ∧ s = sep ∧ SepAlt sep rest

theorem reSplit_sepAlt (sep content : List Char) (hsep : sep ≠ []) :
    SepAlt sep (reSplit sep content) := by
  induction content using reSplit.induct sep with
  | case1 content h => exact absurd h hsep
  | case2 content h hf =>
    rw [reSplit, dif_neg hsep]
    split
    · exact hasSub_eq_false_iff.mpr hf
    · rename_i i heq
      rw [hf] at heq
      exact absurd heq (by simp)
  | case3 content h i hf ih =>
    rw [reSplit, dif_neg hsep]
    split
    · rename_i heq
      rw [hf] at heq
      exact absurd heq (by simp)
    · rename_i i' heq
      rw [hf] at heq
      cases heq
      refine ⟨hasSub_take_eq_false hsep (pyFind_some_min hf), rfl, ih⟩

theorem reSplit_ne_nil (sep content : List Char) : reSplit sep content ≠ [] := by
  rw [reSplit]
  split
  · simp [emptySepSplit]
  · split <;> simp

theorem pairUp_ne_nil {l : List (List Char)} (h : l ≠ []) : pairUp l ≠ [] := by
  match l with
  | [] => exact absurd rfl h
  | [a] => simp [pairUp]
  | a :: b :: rest => simp [pairUp]

theorem parse_eq_pairUp_reSplit {sep content : List Char} (hc : content ≠ []) :
    parse sep content = pairUp (reSplit sep content) := by
  unfold parse
  rw [if_neg hc]
  exact if_neg (pairUp_ne_nil (reSplit_ne_nil sep content))

/-! ### Claim theorems about the parser -/

/-- C6: `parse` partitions the content into alternating non-separator
and separator runs (the split concatenates back to the content, odd
entries are the separator, even entries contain no occurrence of it)
and produces block i by concatenating the i-th non-separator run with
the following separator run if one exists (the `pairUp` merge); in
particular, for content `"AAA\n---\nBBB\n---\nCCC"` with separator
`"---"` it yields exactly `["AAA\n---", "\nBBB\n---", "\nCCC"]`. -/
theorem C6_parse_alternating_partition :
    (parse ("---".toList) ("AAA\n---\nBBB\n---\nCCC".toList)
      = ["AAA\n---".toList, "\nBBB\n---".toList, "\nCCC".toList])
    ∧ ∀ sep content : List Char, sep ≠ [] → content ≠ [] →
        SepAlt sep (reSplit sep content)
        ∧ (reSplit sep content).flatten = content
        ∧ parse sep content = pairUp (reSplit sep content) := by
  constructor
  · simp [parse, reSplit, pyFind, pairUp, List.isPrefixOf, String.toList]
  · intro sep content hsep hc
    exact ⟨reSplit_sepAlt sep content hsep, reSplit_join sep content,
      parse_eq_pairUp_reSplit hc⟩

theorem C6_witness :
    ("--".toList ≠ []) ∧ ("a--b".toList ≠ []) ∧
      (SepAlt ("--".toList) (reSplit ("--".toList) ("a--b".toList))
       ∧ (reSplit ("--".toList) ("a--b".toList)).flatten = "a--b".toList
       ∧ parse ("--".toList) ("a--b".toList)
           = pairUp (reSplit ("--".toList) ("a--b".toList))) :=
  ⟨by decide, by decide,
    C6_parse_alternating_partition.2 ("--".toList) ("a--b".toList)
      (by decide) (by decide)⟩

/-- C7 counterexample: the claim includes the empty content string, but
`parse` returns no blocks at all for empty content (the code's
`if not self.content: return []` early exit), not one block equal to
the content. -/
theorem C7_counterexample :
    hasSub ("---".toList) ([] : List Char) = false
    ∧ parse ("---".toList) ([] : List Char) ≠ [([] : List Char)]
    ∧ parse ("---".toList) ([] : List Char) = [] := by
  refine ⟨by decide, ?_, by rfl⟩
  intro h
  have : ([] : List (List Char)) = [([] : List Char)] := by
    rw [← h]; rfl
  simp at this

/-- C7 (amended): for every NON-EMPTY content string that does not
contain the separator, `parse` yields exactly one block equal to the
original content (for empty content it yields no blocks); consequently
the block sequence is non-empty once a document with non-empty content
is loaded. -/
theorem C7_parse_single_block {sep content : List Char}
    (hc : content ≠ []) (hns : hasSub sep content = false) :
    parse sep content = [content] := by
  have hsep : sep ≠ [] := by
    intro h
    subst h
    rw [hasSub_eq_false_iff, pyFind_nil_needle] at hns
    simp at hns
  have hf : pyFind sep content = none := hasSub_eq_false_iff.mp hns
  have hr : reSplit sep content = [content] := by
    rw [reSplit, dif_neg hsep]
    split
    · rfl
    · rename_i i heq
      rw [hf] at heq
      exact absurd heq (by simp)
  rw [parse_eq_pairUp_reSplit hc, hr]
  rfl

theorem C7_witness :
    ("abc".toList ≠ []) ∧ (hasSub ("---".toList) ("abc".toList) = false)
    ∧ parse ("---".toList) ("abc".toList) = ["abc".toList] :=
  ⟨by decide, by decide, C7_parse_single_block (by decide) (by decide)⟩

/-- C10: for every content string and every separator, the
concatenation in order of the blocks returned by `parse` equals the
original content exactly: splitting never loses, duplicates, or
reorders any text. -/
theorem C10_parse_flatten_eq_content (sep content : List Char) :
    (parse sep content).flatten = content := by
  unfold parse
  by_cases hc : content = []
  · rw [if_pos hc, hc]
    rfl
  · rw [if_neg hc]
    show (if pairUp (reSplit sep content) = [] then [content]
      else pairUp (reSplit sep content)).flatten = content
    split
    · simp
    · rw [pairUp_join, reSplit_join]

/-! ### Highlight Rule Engine (src/logview/core/highlighter.py) -/

/-- Python `str.find(sub, start)`: position of the leftmost occurrence
at or after `start`, `none` when there is none (or `start` is past the
end of the string). -/
def pyFindFrom (needle haystack : List Char) (start : Nat) : Option Nat :=
  if start ≤ haystack.length then (pyFind needle (haystack.drop start)).map (start + ·)
  else none

theorem pyFindFrom_some {needle haystack : List Char} {start i : Nat}
    (h : pyFindFrom needle haystack start = some i) :
    start ≤ i ∧ i ≤ haystack.length
      ∧ needle.isPrefixOf (haystack.drop i) = true
      ∧ ∀ k, start ≤ k → k < i → ¬ needle.isPrefixOf (haystack.drop k) = true := by
  unfold pyFindFrom at h
  split at h
  · rename_i hs
    rcases Option.map_eq_some'.mp h with ⟨j, hj, rfl⟩
    have hle := pyFind_some_le hj
    simp only [List.length_drop] at hle
    refine ⟨by omega, by omega, ?_, ?_⟩
    · have := pyFind_some_isPrefixOf hj
      rw [List.drop_drop] at this
      simpa [Nat.add_comm] using this
    · intro k hk1 hk2
      have := pyFind_some_min hj (k - start) (by omega)
      rw [List.drop_drop] at this
      have hks : start + (k - start) = k := by omega
      rwa [hks] at this
  · exact absurd h (by simp)

theorem pyFindFrom_none {needle haystack : List Char} {start : Nat}
    (h : pyFindFrom needle haystack start = none) :
    ∀ k, start ≤ k → k ≤ haystack.length →
      ¬ needle.isPrefixOf (haystack.drop k) = true := by
  intro k hk1 hk2
  unfold pyFindFrom at h
  split at h
  · rename_i hs
    cases hj : pyFind needle (haystack.drop start) with
    | none =>
      have := pyFind_none hj (k - start)
      rw [List.drop_drop] at this
      have hks : start + (k - start) = k := by omega
      rwa [hks] at this
    | some j => rw [hj] at h; simp at h
  · omega

/-- The literal-pattern scanning loop of `Highlighter.find_matches`:
find the next occurrence of the (already case-folded) pattern at or
after the cursor, record the span `(start, start + len(pattern))`, and
advance the cursor by exactly one position past the match start. -/
def litMatchesFrom (needle haystack : List Char) (start : Nat) : List (Nat × Nat) :=
  match hf : pyFindFrom needle haystack start with
  | none => []
  | some i => (i, i + needle.length) :: litMatchesFrom needle haystack (i + 1)
termination_by haystack.length + 1 - start
decreasing_by
  have h := pyFindFrom_some hf
  omega

/-- Case folding applied by `find_matches` when the pattern is not
case-sensitive. -/
def lowerIf (case_sensitive : Bool) (l : List Char) : List Char :=
  if case_sensitive then l else lower l

/-- The literal (non-regex) branch of `Highlighter.find_matches`. -/
def find_matches_literal (case_sensitive : Bool) (pat text : List Char) :
    List (Nat × Nat) :=
  litMatchesFrom (lowerIf case_sensitive pat) (lowerIf case_sensitive text) 0

theorem filter_range_least {n i : Nat} {p q : Nat → Bool} (hin : i < n)
    (hpi : p i = true) (hmin : ∀ j < i, p j = false)
    (hq : ∀ j, q j = (p j && decide (i < j))) :
    (List.range n).filter p = i :: (List.range n).filter q := by
  have hn : n = (i + 1) + (n - (i + 1)) := by omega
  rw [hn, List.range_add]
  rw [List.filter_append, List.filter_append]
  have h1 : (List.range (i + 1)).filter p = [i] := by
    rw [List.range_succ, List.filter_append]
    have h0 : (List.range i).filter p = [] := by
      rw [List.filter_eq_nil_iff]
      intro a ha
      rw [List.mem_range] at ha
      simp [hmin a ha]
    rw [h0]
    simp [hpi]
  have h2 : (List.range (i + 1)).filter q = [] := by
    rw [List.filter_eq_nil_iff]
    intro a ha
    rw [List.mem_range] at ha
    rw [hq a]
    simp
    intro _
    omega
  have h3 : ((List.range (n - (i + 1))).map (i + 1 + ·)).filter p
      = ((List.range (n - (i + 1))).map (i + 1 + ·)).filter q := by
    apply List.filter_congr
    intro a ha
    rcases List.mem_map.mp ha with ⟨b, _, rfl⟩
    rw [hq]
    have : decide (i < i + 1 + b) = true := by simp; omega
    rw [this, Bool.and_true]
  rw [h1, h2, h3]
  simp

theorem litMatchesFrom_eq (needle haystack : List Char) (start : Nat) :
    litMatchesFrom needle haystack start
      = ((List.range (haystack.length + 1)).filter
          (fun i => decide (start ≤ i) && needle.isPrefixOf (haystack.drop i))).map
          (fun i => (i, i + needle.length)) := by
  induction start using litMatchesFrom.induct needle haystack with
  | case1 start hf =>
    rw [litMatchesFrom]
    split
    · rename_i hf'
      have hnone := pyFindFrom_none hf'
      have : (List.range (haystack.length + 1)).filter
          (fun i => decide (start ≤ i) && needle.isPrefixOf (haystack.drop i)) = [] := by
        rw [List.filter_eq_nil_iff]
        intro a ha
        rw [List.mem_range] at ha
        by_cases hsa : start ≤ a
        · rw [bool_eq_false (hnone a hsa (by omega))]
          simp
        · have hd : decide (start ≤ a) = false := by simp [hsa]
          rw [hd]
          simp
      rw [this]
      rfl
    · rename_i i heq
      rw [hf] at heq
      exact absurd heq (by simp)
  | case2 start i hf ih =>
    rw [litMatchesFrom]
    split
    · rename_i heq
      rw [hf] at heq
      exact absurd heq (by simp)
    · rename_i i' heq
      rw [hf] at heq
      cases heq
      rw [ih]
      obtain ⟨hsi, hil, hocc, hmin⟩ := pyFindFrom_some hf
      have hstep : (List.range (haystack.length + 1)).filter
          (fun j => decide (start ≤ j) && needle.isPrefixOf (haystack.drop j))
          = i :: (List.range (haystack.length + 1)).filter
            (fun j => decide (i + 1 ≤ j) && needle.isPrefixOf (haystack.drop j)) := by
        apply filter_range_least (by omega)
        · simp [hsi, hocc]
        · intro j hj
          by_cases hsj : start ≤ j
          · rw [bool_eq_false (hmin j hsj hj)]
            simp
          · have hd : decide (start ≤ j) = false := by simp [hsj]
            rw [hd]
            simp
        · intro j
          by_cases hj : i + 1 ≤ j
          · have h1 : decide (i + 1 ≤ j) = true := by simp [hj]
            have h2 : decide (start ≤ j) = true := by simp; omega
            have h3 : decide (i < j) = true := by simp; omega
            rw [h1, h2, h3]
            simp
          · have h1 : decide (i + 1 ≤ j) = false := by simp; omega
            have h3 : decide (i < j) = false := by simp; omega
            rw [h1, h3]
            simp
      rw [hstep]
      rfl

/-! ### Claim theorem about the highlighter -/

/-- C9: for every text and every literal (non-regex) pattern,
`find_matches` returns exactly the spans `(start, start + len(pattern))`
at all occurrence positions of the pattern in the text (case-folded
when the pattern is not case-sensitive), in left-to-right order;
because the cursor advances only one position past each match start,
overlapping occurrences are all reported. -/
theorem C9_find_matches_literal_all_spans (case_sensitive : Bool)
    (pat text : List Char) :
    find_matches_literal case_sensitive pat text
      = ((List.range (text.length + 1)).filter
          (fun i => (lowerIf case_sensitive pat).isPrefixOf
            ((lowerIf case_sensitive text).drop i))).map
          (fun i => (i, i + pat.length)) := by
  unfold find_matches_literal
  rw [litMatchesFrom_eq]
  have hlen : (lowerIf case_sensitive text).length = text.length := by
    unfold lowerIf lower
    split <;> simp
  have hplen : (lowerIf case_sensitive pat).length = pat.length := by
    unfold lowerIf lower
    split <;> simp
  rw [hlen, hplen]
  congr 1
  apply List.filter_congr
  intro a _
  simp

/-! ### Navigation/Filter State Machine (src/logview/core/viewer.py)

`ViewerState` mirrors the mutable session record; `Viewer` couples it
with the parsed block sequence (and the highlighter's transient search
pattern).  Status messages are modelled by the literal strings the
source assigns (the load message's file name is elided).  Each mutating
operation returns the success flag and the updated state. -/

structure ViewerState where
  current_block_index : Nat
  filtered_indices : List Nat
  current_filtered_index : Nat
  filter_mode : Bool
  search_term : List Char
  top_line : Nat
  full_view_mode : Bool
  show_line_numbers : Bool
  highlight_enabled : Bool
  help_mode : Bool
  message : String
  error : Bool
  focus_keyword : Bool
  focus_offset : Nat
deriving DecidableEq

/-- `ViewerState.__init__` defaults. -/
def initState : ViewerState where
  current_block_index := 0
  filtered_indices := []
  current_filtered_index := 0
  filter_mode := false
  search_term := []
  top_line := 0
  full_view_mode := false
  show_line_numbers := true
  highlight_enabled := true
  help_mode := false
  message := ""
  error := false
  focus_keyword := false
  focus_offset := 8

structure Viewer where
  blocks : List (List Char)
  search_pattern : Option (List Char)
  state : ViewerState
deriving DecidableEq

/-- `LogViewer.reset_state`, run after every load/reparse. -/
def reset_state (v : Viewer) : Viewer :=
  { v with state := { v.state with
      current_block_index := 0
      filter_mode := false
      filtered_indices := List.range v.blocks.length
      current_filtered_index := 0
      top_line := 0
      message := "已加载文件"
      error := false } }

/-- A freshly loaded document: parsed blocks with the state reset. -/
def load_viewer (blocks : List (List Char)) : Viewer :=
  reset_state { blocks := blocks, search_pattern := none, state := initState }

/-- `LogViewer.get_actual_index`. -/
def get_actual_index (v : Viewer) : Nat :=
  if v.state.filter_mode ∧ v.state.filtered_indices ≠ [] then
    v.state.filtered_indices.getD v.state.current_filtered_index 0
  else v.state.current_block_index

/-- `LogViewer.get_block_count`. -/
def get_block_count (v : Viewer) : Nat :=
  if v.state.filter_mode ∧ v.state.filtered_indices ≠ [] then
    v.state.filtered_indices.length
  else v.blocks.length

/-- `LogViewer.get_current_block` (via `LogParser.get_block`). -/
def get_current_block (v : Viewer) : Option (List Char) :=
  if v.blocks = [] then none
  else v.blocks.get? (get_actual_index v)

/-- `LogViewer._focus_on_keyword`: relocate `top_line` so the first
line matching the search term sits `focus_offset` lines below the top,
clamped to the block's line count (the clamp is skipped for a missing
or empty — falsy — block). -/
def focus_on_keyword (v : Viewer) : Bool × Viewer :=
  if v.state.search_term = [] then (false, v)
  else
    match search_in_block v.blocks (get_actual_index v) v.state.search_term with
    | [] => (false, v)
    | (matched_line, _) :: _ =>
      let ntl := matched_line - v.state.focus_offset
      let ntl2 := match get_current_block v with
        | some b => if b = [] then ntl else min ntl ((splitNl b).length - 1)
        | none => ntl
      (true, { v with state := { v.state with top_line := ntl2 } })

/-- The common mutation of the filtered-mode navigation paths: set the
filtered position, mirror it into `current_block_index`, and reset
`top_line`. -/
def set_position_filtered (v : Viewer) (cfi : Nat) : Viewer :=
  { v with state := { v.state with
      current_filtered_index := cfi
      current_block_index := v.state.filtered_indices.getD cfi 0
      top_line := 0 } }

/-- The common mutation of the unfiltered-mode navigation paths. -/
def set_position_unfiltered (v : Viewer) (cbi : Nat) : Viewer :=
  { v with state := { v.state with
      current_block_index := cbi
      top_line := 0 } }

/-- The conditional keyword-focus call guarding `_focus_on_keyword`
inside `next_block`, `prev_block` and `goto_block`. -/
def maybe_focus (v : Viewer) : Viewer :=
  if v.state.focus_keyword ∧ v.state.search_term ≠ [] then (focus_on_keyword v).2
  else v

/-- `LogViewer.next_block`. -/
def next_block (v : Viewer) : Bool × Viewer :=
  if v.blocks = [] then (false, v)
  else if v.state.filter_mode ∧ v.state.filtered_indices ≠ [] then
    if v.state.current_filtered_index < v.state.filtered_indices.length - 1 then
      (true, maybe_focus (set_position_filtered v (v.state.current_filtered_index + 1)))
    else (false, v)
  else if ¬ v.state.filter_mode then
    if v.state.current_block_index < v.blocks.length - 1 then
      (true, set_position_unfiltered v (v.state.current_block_index + 1))
    else (false, v)
  else (false, v)

/-- `LogViewer.prev_block`. -/
def prev_block (v : Viewer) : Bool × Viewer :=
  if v.blocks = [] then (false, v)
  else if v.state.filter_mode ∧ v.state.filtered_indices ≠ [] then
    if v.state.current_filtered_index > 0 then
      (true, maybe_focus (set_position_filtered v (v.state.current_filtered_index - 1)))
    else (false, v)
  else if ¬ v.state.filter_mode then
    if v.state.current_block_index > 0 then
      (true, set_position_unfiltered v (v.state.current_block_index - 1))
    else (false, v)
  else (false, v)

/-- `LogViewer.first_block`. -/
def first_block (v : Viewer) : Bool × Viewer :=
  if v.blocks = [] then (false, v)
  else
    let v1 := if v.state.filter_mode ∧ v.state.filtered_indices ≠ [] then
        set_position_filtered v 0
      else set_position_unfiltered v 0
    if v1.state.filter_mode ∧ v1.state.focus_keyword ∧ v1.state.search_term ≠ [] then
      (true, (focus_on_keyword v1).2)
    else (true, v1)

/-- `LogViewer.last_block`. -/
def last_block (v : Viewer) : Bool × Viewer :=
  if v.blocks = [] then (false, v)
  else
    let v1 := if v.state.filter_mode ∧ v.state.filtered_indices ≠ [] then
        set_position_filtered v (v.state.filtered_indices.length - 1)
      else set_position_unfiltered v (v.blocks.length - 1)
    if v1.state.filter_mode ∧ v1.state.focus_keyword ∧ v1.state.search_term ≠ [] then
      (true, (focus_on_keyword v1).2)
    else (true, v1)

/-- `LogViewer.goto_block` with a 1-based block number. -/
def goto_block (v : Viewer) (block_num : Nat) : Bool × Viewer :=
  if v.blocks = [] ∨ block_num < 1 then (false, v)
  else if v.state.filter_mode ∧ v.state.filtered_indices ≠ [] then
    if block_num ≤ v.state.filtered_indices.length then
      (true, maybe_focus (set_position_filtered v (block_num - 1)))
    else
      (false, { v with state := { v.state with
          message := "块编号超出范围 (1-"
            ++ toString v.state.filtered_indices.length ++ ")"
          error := true } })
  else
    if block_num ≤ v.blocks.length then
      (true, set_position_unfiltered v (block_num - 1))
    else
      (false, { v with state := { v.state with
          message := "块编号超出范围 (1-" ++ toString v.blocks.length ++ ")"
          error := true } })

/-- `LogViewer.set_search_term` (also updates the highlighter's
transient search pattern). -/
def set_search_term (v : Viewer) (term : List Char) : Viewer :=
  { v with
      search_pattern := if term = [] then none else some term
      state := { v.state with search_term := term } }

/-- `LogViewer.filter_blocks`. -/
def filter_blocks (v : Viewer) : Bool × Viewer :=
  if v.state.search_term = [] ∨ v.blocks = [] then (false, v)
  else
    let fi := search_blocks v.state.search_term v.blocks
    if fi = [] then
      (false, { v with state := { v.state with
          filtered_indices := fi
          message := "没有找到匹配的数据块"
          error := true } })
    else
      let v1 := { v with state := { v.state with
          filtered_indices := fi
          filter_mode := true
          current_filtered_index := 0
          current_block_index := fi.getD 0 0
          top_line := 0 } }
      let v2 := if v1.state.focus_keyword then (focus_on_keyword v1).2 else v1
      (true, { v2 with state := { v2.state with
          message := "找到 " ++ toString fi.length ++ " 个匹配的数据块" } })

/-- `LogViewer.clear_filter`. -/
def clear_filter (v : Viewer) : Viewer :=
  { v with state := { v.state with
      filter_mode := false
      filtered_indices := List.range v.blocks.length
      message := "已清除过滤" } }

/-- `LogViewer.scroll_up`. -/
def scroll_up (v : Viewer) (lines : Nat) : Bool × Viewer :=
  if v.state.top_line ≥ lines then
    (true, { v with state := { v.state with top_line := v.state.top_line - lines } })
  else if v.state.top_line > 0 then
    (true, { v with state := { v.state with top_line := 0 } })
  else (false, v)

/-- `LogViewer.scroll_down`. -/
def scroll_down (v : Viewer) (lines : Nat) : Bool × Viewer :=
  match get_current_block v with
  | none => (false, v)
  | some b =>
    if b = [] then (false, v)
    else
      let total := (splitNl b).length
      if v.state.top_line + lines < total then
        (true, { v with state := { v.state with top_line := v.state.top_line + lines } })
      else if v.state.top_line < total - 1 then
        (true, { v with state := { v.state with top_line := total - 1 } })
      else (false, v)

/-- `LogViewer.page_up`. -/
def page_up (v : Viewer) (page_size : Nat) : Bool × Viewer := scroll_up v page_size

/-- `LogViewer.page_down`. -/
def page_down (v : Viewer) (page_size : Nat) : Bool × Viewer := scroll_down v page_size

/-- `LogViewer.scroll_to_top`. -/
def scroll_to_top (v : Viewer) : Viewer :=
  { v with state := { v.state with top_line := 0 } }

/-- `LogViewer.scroll_to_bottom`. -/
def scroll_to_bottom (v : Viewer) : Viewer :=
  match get_current_block v with
  | none => v
  | some b =>
    if b = [] then v
    else { v with state := { v.state with top_line := (splitNl b).length - 1 } }

/-- `LogViewer.toggle_full_view`. -/
def toggle_full_view (v : Viewer) : Viewer :=
  { v with state := { v.state with
      full_view_mode := !v.state.full_view_mode
      top_line := 0
      message := if !v.state.full_view_mode then "已切换到完整文件视图" else "已切换到分块视图" } }

/-- `LogViewer.toggle_line_numbers`. -/
def toggle_line_numbers (v : Viewer) : Viewer :=
  { v with state := { v.state with
      show_line_numbers := !v.state.show_line_numbers
      message := if !v.state.show_line_numbers then "已启用行号显示" else "已禁用行号显示" } }

/-- `LogViewer.toggle_highlight`. -/
def toggle_highlight (v : Viewer) : Viewer :=
  { v with state := { v.state with
      highlight_enabled := !v.state.highlight_enabled
      message := if !v.state.highlight_enabled then "已启用关键词高亮" else "已禁用关键词高亮" } }

/-- `LogViewer.toggle_help_mode`. -/
def toggle_help_mode (v : Viewer) : Viewer :=
  { v with state := { v.state with help_mode := !v.state.help_mode, top_line := 0 } }

/-- `LogViewer.set_message`. -/
def set_message (v : Viewer) (m : String) (e : Bool) : Viewer :=
  { v with state := { v.state with message := m, error := e } }

/-- `LogViewer.toggle_keyword_focus`. -/
def toggle_keyword_focus (v : Viewer) : Viewer :=
  let v1 := { v with state := { v.state with focus_keyword := !v.state.focus_keyword } }
  if v1.state.focus_keyword then
    let v2 := { v1 with state := { v1.state with
        message := "已启用关键词聚焦 (+ - 调整聚焦位置)" } }
    if v2.state.filter_mode ∧ v2.state.search_term ≠ [] then (focus_on_keyword v2).2
    else v2
  else { v1 with state := { v1.state with message := "已禁用关键词聚焦" } }

/-- `LogViewer.increase_focus_offset`. -/
def increase_focus_offset (v : Viewer) : Viewer :=
  if v.state.focus_offset < 30 then
    let v1 := { v with state := { v.state with
        focus_offset := v.state.focus_offset + 1
        message := "聚焦偏移量: " ++ toString (v.state.focus_offset + 1) ++ "行" } }
    if v1.state.focus_keyword ∧ v1.state.filter_mode ∧ v1.state.search_term ≠ [] then
      (focus_on_keyword v1).2
    else v1
  else v

/-- `LogViewer.decrease_focus_offset`. -/
def decrease_focus_offset (v : Viewer) : Viewer :=
  if v.state.focus_offset > 1 then
    let v1 := { v with state := { v.state with
        focus_offset := v.state.focus_offset - 1
        message := "聚焦偏移量: " ++ toString (v.state.focus_offset - 1) ++ "行" } }
    if v1.state.focus_keyword ∧ v1.state.filter_mode ∧ v1.state.search_term ≠ [] then
      (focus_on_keyword v1).2
    else v1
  else v

/-- Position within the active index space (filtered position when the
filter governs addressing, absolute position otherwise). -/
def active_idx (v : Viewer) : Nat :=
  if v.state.filter_mode ∧ v.state.filtered_indices ≠ [] then
    v.state.current_filtered_index
  else v.state.current_block_index

theorem focus_on_keyword_eq (v : Viewer) :
    ∃ tl, (focus_on_keyword v).2 = { v with state := { v.state with top_line := tl } } := by
  unfold focus_on_keyword
  split
  · exact ⟨v.state.top_line, rfl⟩
  · split
    · exact ⟨v.state.top_line, rfl⟩
    · exact ⟨_, rfl⟩

theorem maybe_focus_eq (v : Viewer) :
    ∃ tl, maybe_focus v = { v with state := { v.state with top_line := tl } } := by
  unfold maybe_focus
  split
  · exact focus_on_keyword_eq v
  · exact ⟨v.state.top_line, rfl⟩

theorem active_idx_set_top (v : Viewer) (tl : Nat) :
    active_idx { v with state := { v.state with top_line := tl } } = active_idx v := rfl

theorem get_block_count_set_top (v : Viewer) (tl : Nat) :
    get_block_count { v with state := { v.state with top_line := tl } }
      = get_block_count v := rfl

theorem next_block_true {v v' : Viewer} (h : next_block v = (true, v')) :
    v'.blocks = v.blocks ∧ get_block_count v' = get_block_count v
      ∧ active_idx v' = active_idx v + 1 ∧ active_idx v' < get_block_count v' := by
  unfold next_block at h
  split at h
  · simp at h
  · split at h
    · rename_i hb hfm
      split at h
      · rename_i hlt
        obtain ⟨tl, htl⟩ := maybe_focus_eq (set_position_filtered v (v.state.current_filtered_index + 1))
        rw [htl] at h
        cases h
        refine ⟨rfl, ?_, ?_, ?_⟩ <;>
          simp [get_block_count, active_idx, set_position_filtered, hfm.1, hfm.2] <;>
          omega
      · simp at h
    · split at h
      · rename_i hb hfm hnfm
        split at h
        · rename_i hlt
          cases h
          have hfm' : ¬ (v.state.filter_mode = true) := by simpa using hnfm
          refine ⟨rfl, ?_, ?_, ?_⟩ <;>
            simp [get_block_count, active_idx, set_position_unfiltered, hfm'] <;>
            omega
        · simp at h
      · simp at h

theorem next_block_false {v v' : Viewer} (h : next_block v = (false, v')) :
    v' = v := by
  unfold next_block at h
  split at h
  · cases h; rfl
  · split at h
    · split at h
      · simp at h
      · cases h; rfl
    · split at h
      · split at h
        · simp at h
        · cases h; rfl
      · cases h; rfl

theorem prev_block_true {v v' : Viewer} (h : prev_block v = (true, v')) :
    v'.blocks = v.blocks ∧ get_block_count v' = get_block_count v
      ∧ active_idx v' + 1 = active_idx v := by
  unfold prev_block at h
  split at h
  · simp at h
  · split at h
    · rename_i hb hfm
      split at h
      · rename_i hlt
        obtain ⟨tl, htl⟩ := maybe_focus_eq (set_position_filtered v (v.state.current_filtered_index - 1))
        rw [htl] at h
        cases h
        refine ⟨rfl, ?_, ?_⟩ <;>
          simp [get_block_count, active_idx, set_position_filtered, hfm.1, hfm.2] <;>
          omega
      · simp at h
    · split at h
      · rename_i hb hfm hnfm
        split at h
        · rename_i hlt
          cases h
          have hfm' : ¬ (v.state.filter_mode = true) := by simpa using hnfm
          refine ⟨rfl, ?_, ?_⟩ <;>
            simp [get_block_count, active_idx, set_position_unfiltered, hfm'] <;>
            omega
        · simp at h
      · simp at h

theorem prev_block_false {v v' : Viewer} (h : prev_block v = (false, v')) :
    v' = v := by
  unfold prev_block at h
  split at h
  · cases h; rfl
  · split at h
    · split at h
      · simp at h
      · cases h; rfl
    · split at h
      · split at h
        · simp at h
        · cases h; rfl
      · cases h; rfl

/-- The forward line scan of `search_next`: the first line index at or
after `start` whose text contains the term case-insensitively. -/
def find_line_from (lines : List (List Char)) (start : Nat) (term : List Char) :
    Option Nat :=
  (List.range lines.length).find?
    (fun i => decide (start ≤ i) && hasSub (lower term) (lower (lines.getD i [])))

/-- The backward line scan of `search_prev`: the last line index
strictly before `top` whose text contains the term case-insensitively. -/
def find_line_before (lines : List (List Char)) (top : Nat) (term : List Char) :
    Option Nat :=
  ((List.range lines.length).filter
    (fun i => decide (i < top) && hasSub (lower term) (lower (lines.getD i [])))).getLast?

/-- `LogViewer.search_next` (recursive across blocks, as in the source). -/
def search_next (v : Viewer) : Bool × Viewer :=
  if v.state.search_term = [] ∨ v.blocks = [] then (false, v)
  else
    match v.blocks.get? (get_actual_index v) with
    | none => (false, v)
    | some b =>
      if b = [] then (false, v)
      else
        match find_line_from (splitNl b) (v.state.top_line + 1) v.state.search_term with
        | some i => (true, { v with state := { v.state with top_line := i } })
        | none =>
          match hnb : next_block v with
          | (true, v') => search_next v'
          | (false, v') =>
            (false, { v' with state := { v'.state with
                message := "已到达最后一个搜索结果" } })
termination_by get_block_count v - active_idx v
decreasing_by
  obtain ⟨hb, hc, ha, hlt⟩ := next_block_true hnb
  omega

/-- The `if block:` adjustment of `search_prev` before recursing:
move `top_line` to the last line of the (truthy) new current block. -/
def top_to_last_line (v : Viewer) : Viewer :=
  match v.blocks.get? (get_actual_index v) with
  | some b =>
    if b = [] then v
    else { v with state := { v.state with top_line := (splitNl b).length - 1 } }
  | none => v

theorem top_to_last_line_eq (v : Viewer) :
    ∃ tl, top_to_last_line v = { v with state := { v.state with top_line := tl } } := by
  unfold top_to_last_line
  split
  · split
    · exact ⟨v.state.top_line, rfl⟩
    · exact ⟨_, rfl⟩
  · exact ⟨v.state.top_line, rfl⟩

/-- `LogViewer.search_prev` (recursive across blocks, as in the source). -/
def search_prev (v : Viewer) : Bool × Viewer :=
  if v.state.search_term = [] ∨ v.blocks = [] then (false, v)
  else
    match v.blocks.get? (get_actual_index v) with
    | none => (false, v)
    | some b =>
      if b = [] then (false, v)
      else
        match find_line_before (splitNl b) v.state.top_line v.state.search_term with
        | some i => (true, { v with state := { v.state with top_line := i } })
        | none =>
          match hpb : prev_block v with
          | (true, v') => search_prev (top_to_last_line v')
          | (false, v') =>
            (false, { v' with state := { v'.state with
                message := "已到达第一个搜索结果" } })
termination_by active_idx v
decreasing_by
  obtain ⟨hb, hc, ha⟩ := prev_block_true hpb
  obtain ⟨tl, htl⟩ := top_to_last_line_eq v'
  rw [htl, active_idx_set_top]
  omega

/-! ### Claim theorems about navigation -/

theorem maybe_focus_of_no_focus {v : Viewer} (h : v.state.focus_keyword = false) :
    maybe_focus v = v := by
  unfold maybe_focus
  rw [if_neg]
  intro hc
  rw [h] at hc
  exact absurd hc.1 (by simp)

/-- C8 counterexample: with keyword focus enabled in filter mode, a
successful `next_block` does NOT leave `topLine` at 0 — the focus
relocation then moves it to the first match minus the focus offset
(here line 9 − offset 8 = 1). -/
def focusSampleViewer : Viewer :=
  { blocks := ["a".toList, "x\nx\nx\nx\nx\nx\nx\nx\nx\na".toList]
    search_pattern := some ['a']
    state := { initState with
      filter_mode := true
      filtered_indices := [0, 1]
      current_filtered_index := 0
      search_term := ['a']
      focus_keyword := true } }

theorem C8_counterexample :
    (next_block focusSampleViewer).1 = true
    ∧ ((next_block focusSampleViewer).2).state.top_line = 1 := by
  constructor <;> decide

/-- C8 (amended): `next()`/`prev()` failure leaves the entire viewer
state unchanged (no wraparound); `next()` at the last reachable
position fails, as does `prev()` at the first, in both the filtered and
the unfiltered index space; a successful move resets `topLine` to 0
whenever keyword focus is disabled (with focus enabled the relocation
of `_focus_on_keyword` may immediately move `topLine` elsewhere). -/
theorem C8_boundary_no_wrap_reset :
    (∀ v v' : Viewer, next_block v = (false, v') → v' = v)
    ∧ (∀ v v' : Viewer, prev_block v = (false, v') → v' = v)
    ∧ (∀ v : Viewer, v.state.filter_mode = true → v.state.filtered_indices ≠ [] →
        v.state.current_filtered_index = v.state.filtered_indices.length - 1 →
        (next_block v).1 = false)
    ∧ (∀ v : Viewer, v.state.filter_mode = false →
        v.state.current_block_index = v.blocks.length - 1 →
        (next_block v).1 = false)
    ∧ (∀ v : Viewer, v.state.filter_mode = true → v.state.filtered_indices ≠ [] →
        v.state.current_filtered_index = 0 →
        (prev_block v).1 = false)
    ∧ (∀ v : Viewer, v.state.filter_mode = false →
        v.state.current_block_index = 0 →
        (prev_block v).1 = false)
    ∧ (∀ v v' : Viewer, v.state.focus_keyword = false →
        next_block v = (true, v') ∨ prev_block v = (true, v') →
        v'.state.top_line = 0) := by
  refine ⟨fun v v' h => next_block_false h, fun v v' h => prev_block_false h,
    ?_, ?_, ?_, ?_, ?_⟩
  · intro v hfm hfi hcfi
    unfold next_block
    split
    · rfl
    · split
      · split
        · rename_i hlt
          have hlen : v.state.filtered_indices.length ≠ 0 := by
            simpa using hfi
          omega
        · rfl
      · rename_i hb hn
        exact absurd ⟨hfm, hfi⟩ hn
  · intro v hfm hcbi
    unfold next_block
    split
    · rfl
    · split
      · rename_i hb hc
        rw [hfm] at hc
        exact absurd hc.1 (by simp)
      · split
        · split
          · rename_i hlt
            omega
          · rfl
        · rfl
  · intro v hfm hfi hcfi
    unfold prev_block
    split
    · rfl
    · split
      · split
        · rename_i hlt
          omega
        · rfl
      · rename_i hb hn
        exact absurd ⟨hfm, hfi⟩ hn
  · intro v hfm hcbi
    unfold prev_block
    split
    · rfl
    · split
      · rename_i hb hc
        rw [hfm] at hc
        exact absurd hc.1 (by simp)
      · split
        · split
          · rename_i hlt
            omega
          · rfl
        · rfl
  · intro v v' hfk h
    rcases h with h | h
    · unfold next_block at h
      split at h
      · simp at h
      · split at h
        · split at h
          · rw [maybe_focus_of_no_focus (by simpa [set_position_filtered] using hfk)] at h
            cases h
            rfl
          · simp at h
        · split at h
          · split at h
            · cases h
              rfl
            · simp at h
          · simp at h
    · unfold prev_block at h
      split at h
      · simp at h
      · split at h
        · split at h
          · rw [maybe_focus_of_no_focus (by simpa [set_position_filtered] using hfk)] at h
            cases h
            rfl
          · simp at h
        · split at h
          · split at h
            · cases h
              rfl
            · simp at h
          · simp at h

theorem C8_witness :
    let v := load_viewer [['a'], ['b']]
    v.state.filter_mode = false ∧ v.state.current_block_index = 0
      ∧ (prev_block v).1 = false := by
  intro v
  refine ⟨by decide, by decide, ?_⟩
  exact C8_boundary_no_wrap_reset.2.2.2.2.2.1 v (by decide) (by decide)

/-- C1 counterexample: a failed `filter_blocks` DOES modify
`filteredIndices` (overwriting it with the empty match result), and
does not force `filterMode` back to false when it was already true:
filtering for "a" succeeds, then re-filtering for "z" fails, leaving
`filterMode` true with `filteredIndices = []`. -/
theorem C1_counterexample :
    let v1 := set_search_term (load_viewer [['a']]) ['a']
    let v2 := (filter_blocks v1).2
    let v3 := set_search_term v2 ['z']
    v3.state.filtered_indices = [0]
    ∧ v3.state.filter_mode = true
    ∧ (filter_blocks v3).1 = false
    ∧ ((filter_blocks v3).2).state.filtered_indices = []
    ∧ ((filter_blocks v3).2).state.filter_mode = true := by
  decide

/-- C1 (amended): `filterBlocks()` with a non-empty `searchTerm`
matching no block returns failure, reports "no matching blocks" with
the error flag set, overwrites `filteredIndices` with the empty match
result, and leaves every other field — including `filterMode`, which
keeps its prior value rather than being forced to false — unchanged. -/
theorem C1_filter_blocks_no_match (v : Viewer)
    (hterm : v.state.search_term ≠ []) (hblocks : v.blocks ≠ [])
    (hempty : search_blocks v.state.search_term v.blocks = []) :
    filter_blocks v = (false, { v with state := { v.state with
        filtered_indices := []
        message := "没有找到匹配的数据块"
        error := true } }) := by
  unfold filter_blocks
  rw [if_neg (by push_neg; exact ⟨hterm, hblocks⟩)]
  simp only [hempty, if_true]

theorem C1_witness :
    let v := set_search_term (load_viewer [['a']]) ['z']
    v.state.search_term ≠ [] ∧ v.blocks ≠ []
      ∧ search_blocks v.state.search_term v.blocks = []
      ∧ filter_blocks v = (false, { v with state := { v.state with
          filtered_indices := []
          message := "没有找到匹配的数据块"
          error := true } }) := by
  intro v
  exact ⟨by decide, by decide, by decide,
    C1_filter_blocks_no_match v (by decide) (by decide) (by decide)⟩

/-- C4 counterexample: in filter mode, `goto_block n` addresses the
filtered index space, so `actualIndex()` afterwards is the ABSOLUTE
index `filteredIndices[n-1]`, not `n-1`: with `filteredIndices = [1]`,
`goto_block 1` yields `actualIndex() + 1 = 2 ≠ 1`.  Moreover
`goto_block 0` (outside `[1, blockCount]`) fails silently without the
range error message. -/
theorem C4_counterexample :
    let v := (filter_blocks (set_search_term (load_viewer [['x'], ['a']]) ['a'])).2
    v.state.filter_mode = true
    ∧ v.state.filtered_indices = [1]
    ∧ (goto_block v 1).1 = true
    ∧ get_actual_index (goto_block v 1).2 + 1 = 2
    ∧ (goto_block v 0).1 = false
    ∧ ((goto_block v 0).2).state.error = false
    ∧ ((goto_block v 0).2) = v := by
  decide

/-- C4 (amended): when the filtered index space is not active,
`gotoBlock(n)` with `n ∈ [1, blockCount]` succeeds and
`actualIndex() + 1 = n`; when it is active, the same `n` sets the
FILTERED position to `n-1`, so `actualIndex()` becomes
`filteredIndices[n-1]` (not `n-1`); for `n` above the active block
count it fails with the range error message and the error flag; and
for `n = 0` it fails silently, leaving the state (and message)
unchanged. -/
theorem C4_goto_block_spaces :
    (∀ (v : Viewer) (n : Nat),
      ¬ (v.state.filter_mode = true ∧ v.state.filtered_indices ≠ []) →
      1 ≤ n → n ≤ v.blocks.length →
      (goto_block v n).1 = true ∧ get_actual_index (goto_block v n).2 + 1 = n)
    ∧ (∀ (v : Viewer) (n : Nat), v.blocks ≠ [] →
      v.state.filter_mode = true → v.state.filtered_indices ≠ [] →
      1 ≤ n → n ≤ v.state.filtered_indices.length →
      (goto_block v n).1 = true
      ∧ ((goto_block v n).2).state.current_filtered_index = n - 1
      ∧ get_actual_index (goto_block v n).2
          = v.state.filtered_indices.getD (n - 1) 0)
    ∧ (∀ (v : Viewer) (n : Nat), v.blocks ≠ [] → get_block_count v < n →
      (goto_block v n).1 = false
      ∧ ((goto_block v n).2).state.error = true
      ∧ ((goto_block v n).2).state.message
          = "块编号超出范围 (1-" ++ toString (get_block_count v) ++ ")")
    ∧ (∀ v : Viewer, goto_block v 0 = (false, v)) := by
  refine ⟨?_, ?_, ?_, ?_⟩
  · intro v n hnf h1 h2
    have hblocks : v.blocks ≠ [] := by
      intro hb
      rw [hb] at h2
      simp at h2
      omega
    unfold goto_block
    rw [if_neg (by push_neg; exact ⟨hblocks, by omega⟩)]
    rw [if_neg hnf, if_pos h2]
    refine ⟨rfl, ?_⟩
    have : get_actual_index (set_position_unfiltered v (n - 1)) = n - 1 := by
      unfold get_actual_index set_position_unfiltered
      rw [if_neg hnf]
    rw [this]
    omega
  · intro v n hblocks hfm hfi h1 h2
    unfold goto_block
    rw [if_neg (by push_neg; exact ⟨hblocks, by omega⟩)]
    rw [if_pos ⟨hfm, hfi⟩, if_pos h2]
    obtain ⟨tl, htl⟩ := maybe_focus_eq (set_position_filtered v (n - 1))
    rw [htl]
    refine ⟨rfl, rfl, ?_⟩
    simp [get_actual_index, set_position_filtered, hfm, hfi]
  · intro v n hblocks hn
    have h1 : 1 ≤ n := by
      have : 0 ≤ get_block_count v := Nat.zero_le _
      omega
    unfold goto_block
    rw [if_neg (by push_neg; exact ⟨hblocks, by omega⟩)]
    by_cases hf : v.state.filter_mode = true ∧ v.state.filtered_indices ≠ []
    · rw [if_pos hf]
      have hcount : get_block_count v = v.state.filtered_indices.length := by
        unfold get_block_count
        rw [if_pos hf]
      rw [if_neg (by omega)]
      exact ⟨rfl, rfl, by rw [← hcount]⟩
    · rw [if_neg hf]
      have hcount : get_block_count v = v.blocks.length := by
        unfold get_block_count
        rw [if_neg hf]
      rw [if_neg (by omega)]
      exact ⟨rfl, rfl, by rw [← hcount]⟩
  · intro v
    unfold goto_block
    rw [if_pos (Or.inr (by omega))]

theorem C4_witness :
    let vu := load_viewer [['a'], ['b']]
    let vf := (filter_blocks (set_search_term (load_viewer [['x'], ['a']]) ['a'])).2
    (¬ (vu.state.filter_mode = true ∧ vu.state.filtered_indices ≠ []) ∧ 1 ≤ 2
      ∧ 2 ≤ vu.blocks.length
      ∧ (goto_block vu 2).1 = true ∧ get_actual_index (goto_block vu 2).2 + 1 = 2)
    ∧ (vf.blocks ≠ [] ∧ vf.state.filter_mode = true
      ∧ vf.state.filtered_indices ≠ []
      ∧ (goto_block vf 1).1 = true
      ∧ ((goto_block vf 1).2).state.current_filtered_index = 0
      ∧ get_actual_index (goto_block vf 1).2
          = vf.state.filtered_indices.getD 0 0)
    ∧ (vu.blocks ≠ [] ∧ get_block_count vu < 3
      ∧ (goto_block vu 3).1 = false ∧ ((goto_block vu 3).2).state.error = true) := by
  intro vu vf
  refine ⟨⟨by decide, by decide, by decide, ?_⟩, ⟨by decide, by decide, by decide, ?_⟩,
    ⟨by decide, by decide, ?_⟩⟩
  · exact C4_goto_block_spaces.1 vu 2 (by decide) (by decide) (by decide)
  · obtain ⟨a, b, c⟩ := C4_goto_block_spaces.2.1 vf 1 (by decide) (by decide)
      (by decide) (by decide) (by decide)
    exact ⟨a, b, c⟩
  · obtain ⟨a, b, _⟩ := C4_goto_block_spaces.2.2.1 vu 3 (by decide) (by decide)
    exact ⟨a, b⟩

/-! ### Claim theorems about the cross-block search -/

/-- One non-matching step of `search_next`: with no line matching after
`topLine` in the present, non-empty current block and a successful
`next_block`, the search continues on the advanced state. -/
theorem search_next_unfold_step {v v' : Viewer} {b : List Char}
    (hterm : v.state.search_term ≠ []) (hblocks : v.blocks ≠ [])
    (hget : v.blocks.get? (get_actual_index v) = some b) (hb : b ≠ [])
    (hnofind : find_line_from (splitNl b) (v.state.top_line + 1)
        v.state.search_term = none)
    (hnext : next_block v = (true, v')) :
    search_next v = search_next v' := by
  rw [search_next]
  rw [if_neg (by push_neg; exact ⟨hterm, hblocks⟩)]
  simp only [hget]
  rw [if_neg hb]
  simp only [hnofind]
  split
  · rename_i v'' heq
    rw [hnext] at heq
    cases heq
    rfl
  · rename_i v'' heq
    rw [hnext] at heq
    simp at heq

/-- The terminal step of `search_next`: no match after `topLine` in
the present, non-empty current block and `next_block` fails. -/
theorem search_next_unfold_end {v : Viewer} {b : List Char}
    (hterm : v.state.search_term ≠ []) (hblocks : v.blocks ≠ [])
    (hget : v.blocks.get? (get_actual_index v) = some b) (hb : b ≠ [])
    (hnofind : find_line_from (splitNl b) (v.state.top_line + 1)
        v.state.search_term = none)
    (hlast : (next_block v).1 = false) :
    search_next v = (false, { v with state := { v.state with
        message := "已到达最后一个搜索结果" } }) := by
  have hnb : next_block v = (false, v) := by
    have he : next_block v = ((next_block v).1, (next_block v).2) := rfl
    rw [hlast] at he
    have h2 := next_block_false he
    rw [he, h2]
  rw [search_next]
  rw [if_neg (by push_neg; exact ⟨hterm, hblocks⟩)]
  simp only [hget]
  rw [if_neg hb]
  simp only [hnofind]
  split
  · rename_i v' heq
    rw [hnb] at heq
    simp at heq
  · rename_i v' heq
    rw [hnb] at heq
    cases heq
    rfl

/-- C3 counterexample: when matches are exhausted but later blocks
remain, the failed `search_next` walks forward: from block 0 with
`topLine = 1` (its last match) it ends at block 1 with `topLine = 0`,
so `topLine` is NOT left at its last successfully matched value. -/
def c3Viewer : Viewer :=
  { blocks := ["x\na\nb".toList, "c".toList]
    search_pattern := some ['a']
    state := { initState with search_term := ['a'], top_line := 1 } }

/-- The state `search_next` reaches from `c3Viewer` after the failed
scan of block 0 advances to block 1. -/
def c3ViewerB1 : Viewer :=
  { c3Viewer with state := { c3Viewer.state with
      current_block_index := 1
      top_line := 0 } }

theorem C3_counterexample :
    (search_next c3Viewer).1 = false
    ∧ c3Viewer.state.top_line = 1
    ∧ ((search_next c3Viewer).2).state.top_line = 0
    ∧ c3Viewer.state.current_block_index = 0
    ∧ ((search_next c3Viewer).2).state.current_block_index = 1 := by
  have h1 : search_next c3Viewer = search_next c3ViewerB1 :=
    @search_next_unfold_step c3Viewer c3ViewerB1 ("x\na\nb".toList)
      (by decide) (by decide) (by decide) (by decide) (by decide) (by decide)
  have h2 : search_next c3ViewerB1 = (false,
      { c3ViewerB1 with state := { c3ViewerB1.state with
          message := "已到达最后一个搜索结果" } }) :=
    @search_next_unfold_end c3ViewerB1 ("c".toList)
      (by decide) (by decide) (by decide) (by decide) (by decide) (by decide)
  rw [h1, h2]
  refine ⟨rfl, rfl, rfl, rfl, rfl⟩

/-- C3 (amended): when `searchNext()` runs with a non-empty term on a
present, non-empty current block, no line strictly after `topLine`
matches, and the position is already the last reachable one
(`next_block` fails), it returns failure, sets the "reached last
match" message, and leaves `topLine` and the position unchanged.
(When later blocks remain, the failed search instead walks forward and
ends at the last reachable block with `topLine` reset — see the
counterexample.) -/
theorem C3_search_next_at_last (v : Viewer) (b : List Char)
    (hterm : v.state.search_term ≠ []) (hblocks : v.blocks ≠ [])
    (hget : v.blocks.get? (get_actual_index v) = some b) (hb : b ≠ [])
    (hnofind : find_line_from (splitNl b) (v.state.top_line + 1)
        v.state.search_term = none)
    (hlast : (next_block v).1 = false) :
    search_next v = (false, { v with state := { v.state with
        message := "已到达最后一个搜索结果" } }) := by
  have hnb : next_block v = (false, v) := by
    have he : next_block v = ((next_block v).1, (next_block v).2) := rfl
    rw [hlast] at he
    have h2 := next_block_false he
    rw [he, h2]
  rw [search_next]
  rw [if_neg (by push_neg; exact ⟨hterm, hblocks⟩)]
  simp only [hget]
  rw [if_neg hb]
  simp only [hnofind]
  split
  · rename_i v' heq
    rw [hnb] at heq
    simp at heq
  · rename_i v' heq
    rw [hnb] at heq
    cases heq
    rfl

/-- A one-block document with no occurrence of the search term. -/
def c3LastViewer : Viewer :=
  { blocks := ["b".toList]
    search_pattern := some ['a']
    state := { initState with search_term := ['a'] } }

theorem C3_witness :
    c3LastViewer.state.search_term ≠ [] ∧ c3LastViewer.blocks ≠ []
    ∧ c3LastViewer.blocks.get? (get_actual_index c3LastViewer) = some "b".toList
    ∧ "b".toList ≠ []
    ∧ find_line_from (splitNl "b".toList) (c3LastViewer.state.top_line + 1)
        c3LastViewer.state.search_term = none
    ∧ (next_block c3LastViewer).1 = false
    ∧ search_next c3LastViewer = (false, { c3LastViewer with
        state := { c3LastViewer.state with message := "已到达最后一个搜索结果" } }) :=
  ⟨by decide, by decide, by decide, by decide, by decide, by decide,
    C3_search_next_at_last c3LastViewer "b".toList (by decide) (by decide)
      (by decide) (by decide) (by decide) (by decide)⟩

/-- C2 failing input: two blocks `"a\nx"` and `"a\ny"`, search term
`"a"`, position block 0 line 0 with keyword focus off. -/
def c2Viewer : Viewer :=
  { blocks := ["a\nx".toList, "a\ny".toList]
    search_pattern := some ['a']
    state := { initState with search_term := ['a'] } }

/-- The state `search_next` reaches from `c2Viewer` when the scan of
block 0 finds nothing after `topLine` and `next_block` advances. -/
def c2ViewerB1 : Viewer :=
  { c2Viewer with state := { c2Viewer.state with
      current_block_index := 1
      top_line := 0 } }

/-- C2: evaluation of the code at the failing input.  The spec requires
the scan to restart from line 0 of the next block, so `search_next`
must succeed and set `topLine` to the match on line 0 of block 1; the
code instead scans `range(top_line + 1, ...)` after `next_block` has
reset `top_line` to 0, skips line 0, and returns failure ("reached
last match") even though block 1 matches on its line 0 (as witnessed by
`search_in_block`), and even though `next_block` itself succeeds. -/
theorem C2_line0_match_skipped :
    (next_block c2Viewer).1 = true
    ∧ search_in_block c2Viewer.blocks 1 c2Viewer.state.search_term = [(0, ['a'])]
    ∧ (search_next c2Viewer).1 = false
    ∧ ((search_next c2Viewer).2).state.message = "已到达最后一个搜索结果"
    ∧ ((search_next c2Viewer).2).state.current_block_index = 1
    ∧ ((search_next c2Viewer).2).state.top_line = 0 := by
  have h1 : search_next c2Viewer = search_next c2ViewerB1 :=
    @search_next_unfold_step c2Viewer c2ViewerB1 ("a\nx".toList)
      (by decide) (by decide) (by decide) (by decide) (by decide) (by decide)
  have h2 : search_next c2ViewerB1 = (false,
      { c2ViewerB1 with state := { c2ViewerB1.state with
          message := "已到达最后一个搜索结果" } }) :=
    @search_next_unfold_end c2ViewerB1 ("a\ny".toList)
      (by decide) (by decide) (by decide) (by decide) (by decide) (by decide)
  rw [h1, h2]
  exact ⟨by decide, by decide, rfl, rfl, rfl, rfl⟩

/-! ### The filtered-position invariant (claim C5) -/

/-- The filtered position stays within `filteredIndices` whenever the
filter actually governs addressing. -/
def Inv (v : Viewer) : Prop :=
  v.state.filter_mode = true → v.state.filtered_indices ≠ [] →
    v.state.current_filtered_index < v.state.filtered_indices.length

theorem inv_focus_on_keyword {v : Viewer} (hv : Inv v) :
    Inv (focus_on_keyword v).2 := by
  obtain ⟨tl, htl⟩ := focus_on_keyword_eq v
  rw [htl]
  exact hv

theorem inv_maybe_focus {v : Viewer} (hv : Inv v) : Inv (maybe_focus v) := by
  obtain ⟨tl, htl⟩ := maybe_focus_eq v
  rw [htl]
  exact hv

theorem inv_next_block {v : Viewer} (hv : Inv v) : Inv (next_block v).2 := by
  unfold next_block
  split
  · exact hv
  · split
    · split
      · rename_i hfm hlt
        apply inv_maybe_focus
        intro _ hfi
        have : v.state.filtered_indices.length ≠ 0 := by simpa using hfm.2
        simp only [set_position_filtered] at hfi ⊢
        omega
      · exact hv
    · split
      · split
        · rename_i hnf hlt
          intro hfm
          simp only [set_position_unfiltered] at hfm
          exact absurd hfm (by simpa using hnf)
        · exact hv
      · exact hv

theorem inv_prev_block {v : Viewer} (hv : Inv v) : Inv (prev_block v).2 := by
  unfold prev_block
  split
  · exact hv
  · split
    · split
      · rename_i hfm hlt
        apply inv_maybe_focus
        intro _ hfi
        have hlen := hv hfm.1 hfm.2
        simp only [set_position_filtered] at hfi ⊢
        omega
      · exact hv
    · split
      · split
        · rename_i hnf hlt
          intro hfm
          simp only [set_position_unfiltered] at hfm
          exact absurd hfm (by simpa using hnf)
        · exact hv
      · exact hv

theorem inv_first_block {v : Viewer} (hv : Inv v) : Inv (first_block v).2 := by
  unfold first_block
  dsimp only
  split
  · exact hv
  · split <;> rename_i h1
    · split <;> rename_i h2
      all_goals
        first
        | · apply inv_focus_on_keyword
            intro _ hfi
            simp only [set_position_filtered] at hfi ⊢
            have : v.state.filtered_indices.length ≠ 0 := by simpa using h1.2
            omega
        | · intro _ hfi
            simp only [set_position_filtered] at hfi ⊢
            have : v.state.filtered_indices.length ≠ 0 := by simpa using h1.2
            omega
    · split <;> rename_i h2
      · apply inv_focus_on_keyword
        intro hfm hfi
        simp only [set_position_unfiltered] at hfm hfi ⊢
        exact hv hfm hfi
      · intro hfm hfi
        simp only [set_position_unfiltered] at hfm hfi ⊢
        exact hv hfm hfi

theorem inv_last_block {v : Viewer} (hv : Inv v) : Inv (last_block v).2 := by
  unfold last_block
  dsimp only
  split
  · exact hv
  · split <;> rename_i h1
    · split <;> rename_i h2
      all_goals
        first
        | · apply inv_focus_on_keyword
            intro _ hfi
            simp only [set_position_filtered] at hfi ⊢
            have : v.state.filtered_indices.length ≠ 0 := by simpa using h1.2
            omega
        | · intro _ hfi
            simp only [set_position_filtered] at hfi ⊢
            have : v.state.filtered_indices.length ≠ 0 := by simpa using h1.2
            omega
    · split <;> rename_i h2
      · apply inv_focus_on_keyword
        intro hfm hfi
        simp only [set_position_unfiltered] at hfm hfi ⊢
        exact hv hfm hfi
      · intro hfm hfi
        simp only [set_position_unfiltered] at hfm hfi ⊢
        exact hv hfm hfi

theorem inv_goto_block {v : Viewer} (hv : Inv v) (n : Nat) :
    Inv (goto_block v n).2 := by
  unfold goto_block
  split
  · exact hv
  · rename_i hg
    split
    · rename_i hfm
      split
      · rename_i hle
        apply inv_maybe_focus
        intro _ hfi
        simp only [set_position_filtered] at hfi ⊢
        have h1 : 1 ≤ n := by
          by_contra h
          exact hg (Or.inr (by omega))
        omega
      · exact hv
    · split
      · intro hfm
        rename_i hnf _
        simp only [set_position_unfiltered] at hfm
        intro hfi
        exact hv hfm hfi
      · exact hv

theorem inv_set_search_term {v : Viewer} (hv : Inv v) (t : List Char) :
    Inv (set_search_term v t) := hv

theorem inv_filter_blocks {v : Viewer} (hv : Inv v) : Inv (filter_blocks v).2 := by
  unfold filter_blocks
  dsimp only
  split
  · exact hv
  · split
    · rename_i hfi
      intro _ h
      exact absurd hfi h
    · rename_i hfi
      split <;> rename_i h2
      · obtain ⟨tl, htl⟩ := focus_on_keyword_eq _
        rw [htl]
        intro _ _
        simpa using List.length_pos.mpr hfi
      · intro _ _
        simpa using List.length_pos.mpr hfi

theorem inv_clear_filter {v : Viewer} (hv : Inv v) : Inv (clear_filter v) := by
  intro hfm
  simp [clear_filter] at hfm

theorem inv_scroll_up {v : Viewer} (hv : Inv v) (n : Nat) :
    Inv (scroll_up v n).2 := by
  unfold scroll_up
  split
  · exact hv
  · split
    · exact hv
    · exact hv

theorem inv_scroll_down {v : Viewer} (hv : Inv v) (n : Nat) :
    Inv (scroll_down v n).2 := by
  unfold scroll_down
  split
  · exact hv
  · split
    · exact hv
    · dsimp only
      split
      · exact hv
      · split
        · exact hv
        · exact hv

theorem inv_scroll_to_bottom {v : Viewer} (hv : Inv v) :
    Inv (scroll_to_bottom v) := by
  unfold scroll_to_bottom
  split
  · exact hv
  · split
    · exact hv
    · exact hv

theorem inv_toggle_keyword_focus {v : Viewer} (hv : Inv v) :
    Inv (toggle_keyword_focus v) := by
  unfold toggle_keyword_focus
  dsimp only
  split
  · split
    · exact inv_focus_on_keyword hv
    · exact hv
  · exact hv

theorem inv_increase_focus_offset {v : Viewer} (hv : Inv v) :
    Inv (increase_focus_offset v) := by
  unfold increase_focus_offset
  dsimp only
  split
  · split
    · exact inv_focus_on_keyword hv
    · exact hv
  · exact hv

theorem inv_decrease_focus_offset {v : Viewer} (hv : Inv v) :
    Inv (decrease_focus_offset v) := by
  unfold decrease_focus_offset
  dsimp only
  split
  · split
    · exact inv_focus_on_keyword hv
    · exact hv
  · exact hv

theorem inv_top_to_last_line {v : Viewer} (hv : Inv v) :
    Inv (top_to_last_line v) := by
  obtain ⟨tl, htl⟩ := top_to_last_line_eq v
  rw [htl]
  exact hv

theorem inv_search_next_aux :
    ∀ (n : Nat) (v : Viewer), get_block_count v - active_idx v ≤ n → Inv v →
      Inv (search_next v).2 := by
  intro n
  induction n with
  | zero =>
    intro v hm hv
    rw [search_next]
    split
    · exact hv
    · split
      · exact hv
      · split
        · exact hv
        · split
          · exact hv
          · split
            · rename_i v' hnb
              obtain ⟨_, hc, ha, hlt⟩ := next_block_true hnb
              omega
            · rename_i v' hnb
              have h2 := next_block_false hnb
              subst h2
              exact hv
  | succ n ih =>
    intro v hm hv
    rw [search_next]
    split
    · exact hv
    · split
      · exact hv
      · split
        · exact hv
        · split
          · exact hv
          · split
            · rename_i v' hnb
              obtain ⟨_, hc, ha, hlt⟩ := next_block_true hnb
              have hv' : Inv v' := by
                have := inv_next_block hv
                rwa [hnb] at this
              exact ih v' (by omega) hv'
            · rename_i v' hnb
              have h2 := next_block_false hnb
              subst h2
              exact hv

theorem inv_search_next {v : Viewer} (hv : Inv v) : Inv (search_next v).2 :=
  inv_search_next_aux (get_block_count v - active_idx v) v (Nat.le_refl _) hv

theorem inv_search_prev_aux :
    ∀ (n : Nat) (v : Viewer), active_idx v ≤ n → Inv v →
      Inv (search_prev v).2 := by
  intro n
  induction n with
  | zero =>
    intro v hm hv
    rw [search_prev]
    split
    · exact hv
    · split
      · exact hv
      · split
        · exact hv
        · split
          · exact hv
          · split
            · rename_i v' hpb
              obtain ⟨_, hc, ha⟩ := prev_block_true hpb
              omega
            · rename_i v' hpb
              have h2 := prev_block_false hpb
              subst h2
              exact hv
  | succ n ih =>
    intro v hm hv
    rw [search_prev]
    split
    · exact hv
    · split
      · exact hv
      · split
        · exact hv
        · split
          · exact hv
          · split
            · rename_i v' hpb
              obtain ⟨_, hc, ha⟩ := prev_block_true hpb
              have hv' : Inv v' := by
                have := inv_prev_block hv
                rwa [hpb] at this
              obtain ⟨tl, htl⟩ := top_to_last_line_eq v'
              apply ih
              · rw [htl, active_idx_set_top]
                omega
              · exact inv_top_to_last_line hv'
            · rename_i v' hpb
              have h2 := prev_block_false hpb
              subst h2
              exact hv

theorem inv_search_prev {v : Viewer} (hv : Inv v) : Inv (search_prev v).2 :=
  inv_search_prev_aux (active_idx v) v (Nat.le_refl _) hv

/-- The operation alphabet of the viewer session: every public
state-mutating operation of `LogViewer` on a loaded document. -/
inductive Op where
  | next | prev | first | last
  | goto (n : Nat)
  | setTerm (t : List Char)
  | filterOp | clearFilterOp
  | searchNextOp | searchPrevOp
  | scrollUpOp (n : Nat) | scrollDownOp (n : Nat)
  | pageUpOp (n : Nat) | pageDownOp (n : Nat)
  | scrollTopOp | scrollBottomOp
  | toggleFullViewOp | toggleLineNumbersOp | toggleHighlightOp | toggleHelpOp
  | toggleFocusOp | incFocusOp | decFocusOp
  | setMsgOp (m : String) (e : Bool)
deriving DecidableEq

/-- Apply one operation (discarding the success flag, as a driving UI
event loop does). -/
def applyOp (v : Viewer) : Op → Viewer
  | .next => (next_block v).2
  | .prev => (prev_block v).2
  | .first => (first_block v).2
  | .last => (last_block v).2
  | .goto n => (goto_block v n).2
  | .setTerm t => set_search_term v t
  | .filterOp => (filter_blocks v).2
  | .clearFilterOp => clear_filter v
  | .searchNextOp => (search_next v).2
  | .searchPrevOp => (search_prev v).2
  | .scrollUpOp n => (scroll_up v n).2
  | .scrollDownOp n => (scroll_down v n).2
  | .pageUpOp n => (page_up v n).2
  | .pageDownOp n => (page_down v n).2
  | .scrollTopOp => scroll_to_top v
  | .scrollBottomOp => scroll_to_bottom v
  | .toggleFullViewOp => toggle_full_view v
  | .toggleLineNumbersOp => toggle_line_numbers v
  | .toggleHighlightOp => toggle_highlight v
  | .toggleHelpOp => toggle_help_mode v
  | .toggleFocusOp => toggle_keyword_focus v
  | .incFocusOp => increase_focus_offset v
  | .decFocusOp => decrease_focus_offset v
  | .setMsgOp m e => set_message v m e

def runOps (v : Viewer) (ops : List Op) : Viewer := ops.foldl applyOp v

theorem inv_applyOp {v : Viewer} (hv : Inv v) (op : Op) : Inv (applyOp v op) := by
  cases op with
  | next => exact inv_next_block hv
  | prev => exact inv_prev_block hv
  | first => exact inv_first_block hv
  | last => exact inv_last_block hv
  | goto n => exact inv_goto_block hv n
  | setTerm t => exact inv_set_search_term hv t
  | filterOp => exact inv_filter_blocks hv
  | clearFilterOp => exact inv_clear_filter hv
  | searchNextOp => exact inv_search_next hv
  | searchPrevOp => exact inv_search_prev hv
  | scrollUpOp n => exact inv_scroll_up hv n
  | scrollDownOp n => exact inv_scroll_down hv n
  | pageUpOp n => exact inv_scroll_up hv n
  | pageDownOp n => exact inv_scroll_down hv n
  | scrollTopOp => exact hv
  | scrollBottomOp => exact inv_scroll_to_bottom hv
  | toggleFullViewOp => exact hv
  | toggleLineNumbersOp => exact hv
  | toggleHighlightOp => exact hv
  | toggleHelpOp => exact hv
  | toggleFocusOp => exact inv_toggle_keyword_focus hv
  | incFocusOp => exact inv_increase_focus_offset hv
  | decFocusOp => exact inv_decrease_focus_offset hv
  | setMsgOp m e => exact hv

theorem inv_runOps {v : Viewer} (hv : Inv v) (ops : List Op) :
    Inv (runOps v ops) := by
  induction ops generalizing v with
  | nil => exact hv
  | cons op rest ih => exact ih (inv_applyOp hv op)

theorem inv_load_viewer (blocks : List (List Char)) : Inv (load_viewer blocks) := by
  intro h
  simp [load_viewer, reset_state, initState] at h

/-! ### Claim theorems for C5 -/

/-- C5 counterexample: after loading a one-block document, filtering
for a matching term and then re-filtering for a non-matching one,
`filterMode` is still true while `filteredIndices` is empty, and
`actualIndex()` (= 0) is not a member of `filteredIndices`, refuting
the claimed invariant. -/
theorem C5_counterexample :
    (runOps (load_viewer [['a']])
        [Op.setTerm ['a'], Op.filterOp, Op.setTerm ['z'], Op.filterOp]).state.filter_mode
      = true
    ∧ ¬ (get_actual_index (runOps (load_viewer [['a']])
          [Op.setTerm ['a'], Op.filterOp, Op.setTerm ['z'], Op.filterOp])
        ∈ (runOps (load_viewer [['a']])
          [Op.setTerm ['a'], Op.filterOp, Op.setTerm ['z'], Op.filterOp]).state.filtered_indices) := by
  decide

/-- C5 (amended): after every sequence of operations on a loaded
document, `actualIndex()` is a member of `filteredIndices` whenever
`filterMode` is true AND `filteredIndices` is non-empty, and equals
`currentBlockIndex` whenever `filterMode` is false or
`filteredIndices` is empty (a reachable combination: a failed re-filter
from an active filter leaves `filterMode` true with empty
`filteredIndices`). -/
theorem C5_actual_index_invariant (blocks : List (List Char)) (ops : List Op) :
    ((runOps (load_viewer blocks) ops).state.filter_mode = true →
      (runOps (load_viewer blocks) ops).state.filtered_indices ≠ [] →
      get_actual_index (runOps (load_viewer blocks) ops)
        ∈ (runOps (load_viewer blocks) ops).state.filtered_indices)
    ∧ ((runOps (load_viewer blocks) ops).state.filter_mode = false ∨
        (runOps (load_viewer blocks) ops).state.filtered_indices = [] →
      get_actual_index (runOps (load_viewer blocks) ops)
        = (runOps (load_viewer blocks) ops).state.current_block_index) := by
  have hinv : Inv (runOps (load_viewer blocks) ops) :=
    inv_runOps (inv_load_viewer blocks) ops
  constructor
  · intro hfm hfi
    have hlt := hinv hfm hfi
    unfold get_actual_index
    rw [if_pos ⟨hfm, hfi⟩]
    rw [List.getD_eq_getElem _ _ hlt]
    exact List.getElem_mem _
  · intro h
    unfold get_actual_index
    rw [if_neg]
    rcases h with h | h
    · intro hc
      rw [h] at hc
      exact absurd hc.1 (by simp)
    · intro hc
      exact absurd h hc.2

theorem C5_witness :
    ((runOps (load_viewer [['a']]) [Op.setTerm ['a'], Op.filterOp]).state.filter_mode = true
      ∧ (runOps (load_viewer [['a']]) [Op.setTerm ['a'], Op.filterOp]).state.filtered_indices ≠ []
      ∧ get_actual_index (runOps (load_viewer [['a']]) [Op.setTerm ['a'], Op.filterOp])
          ∈ (runOps (load_viewer [['a']]) [Op.setTerm ['a'], Op.filterOp]).state.filtered_indices)
    ∧ ((runOps (load_viewer [['b']]) []).state.filter_mode = false
      ∧ get_actual_index (runOps (load_viewer [['b']]) [])
          = (runOps (load_viewer [['b']]) []).state.current_block_index) :=
  ⟨⟨by decide, by decide,
      (C5_actual_index_invariant [['a']] [Op.setTerm ['a'], Op.filterOp]).1
        (by decide) (by decide)⟩,
    ⟨by decide,
      (C5_actual_index_invariant [['b']] []).2 (Or.inl (by decide))⟩⟩

end Logview
